import Mathlib

set_option maxHeartbeats 1000000

/-!
Verification of the conversation-memory core and its SQL pipeline boundaries.

Embedded source files:
* `src/llm/memory.py` — `_normalize_text`, `_jaccard_similarity`,
  `ConversationMemory` (`_load`, `store`, `find_similar`), `get_memory`;
* `src/app/database_utils.py` — `execute_sql_query` (read-only allow-list);
* `src/llm/llm_chain.py` — `generate_sql_query` (code-fence stripping and
  sentinel handling).

Python strings are modelled as `List Char`; Python floats arising from
`len(..)/len(..)` are modelled as exact rationals; fallible operations
(file IO, the reasoning-service call) are modelled with `Option`/`Except`.
-/

/-- A Python string, modelled as its list of characters. -/
abbrev PyStr := List Char

/-- The whitespace characters recognised by Python `str.split()` / `str.strip()`
and by the regex class `\s` (ASCII fragment). -/
def isPySpace (c : Char) : Bool :=
  c = ' ' || c = '\t' || c = '\n' || c = '\r' || c = '\x0b' || c = '\x0c'

/-- A character kept by the regex class `[a-z0-9]`. -/
def isLowerAlnum (c : Char) : Bool :=
  ('a' ≤ c && c ≤ 'z') || ('0' ≤ c && c ≤ '9')

/-- Python `str.lower()`, per character (ASCII range). -/
def pyLowerChar (c : Char) : Char :=
  if 'A' ≤ c ∧ c ≤ 'Z' then Char.ofNat (c.toNat + 32) else c

/-- Python `str.upper()`, per character (ASCII range). -/
def pyUpperChar (c : Char) : Char :=
  if 'a' ≤ c ∧ c ≤ 'z' then Char.ofNat (c.toNat - 32) else c

/-- Python `text.lower()`. -/
def pyLower (s : PyStr) : PyStr := s.map pyLowerChar

/-- Python `text.upper()`. -/
def pyUpper (s : PyStr) : PyStr := s.map pyUpperChar

/-- `re.sub(r"[^a-z0-9\s]", " ", text)`: every character that is neither a
lower-case letter, a digit nor whitespace is replaced by a space. -/
def subNonAlnum (s : PyStr) : PyStr :=
  s.map fun c => if isLowerAlnum c || isPySpace c then c else ' '

/-- Worker for Python `str.split()` (no separator argument): accumulate the
current word in reverse in `acc`, emit it at each whitespace run. -/
def pySplitAux : PyStr → PyStr → List PyStr
  | [], acc => if acc.isEmpty then [] else [acc.reverse]
  | c :: rest, acc =>
    if isPySpace c then
      if acc.isEmpty then pySplitAux rest [] else acc.reverse :: pySplitAux rest []
    else
      pySplitAux rest (c :: acc)

/-- Python `text.split()`: split on whitespace runs, discarding empty pieces. -/
def pySplit (s : PyStr) : List PyStr := pySplitAux s []

/-- The stop-word list of `_normalize_text` in `src/llm/memory.py`. -/
def stopwords : List PyStr :=
  ["the", "is", "in", "at", "which", "on", "and", "a", "an", "of",
   "for", "to", "by", "with", "that", "this", "these", "those", "are",
   "be"].map String.data

/-- `_normalize_text` from `src/llm/memory.py`: lower-case, replace
punctuation by spaces, split on whitespace, keep tokens of length `> 1`,
drop stop-words. -/
def _normalize_text (text : PyStr) : List PyStr :=
  ((pySplit (subNonAlnum (pyLower text))).filter fun t => t.length > 1).filter
    fun t => !(stopwords.contains t)

/-- `_jaccard_similarity` from `src/llm/memory.py`: token-set Jaccard score,
with the two empty-set special cases of the source, over exact rationals. -/
def _jaccard_similarity (a b : List PyStr) : ℚ :=
  if a.toFinset = ∅ ∧ b.toFinset = ∅ then 1
  else if a.toFinset = ∅ ∨ b.toFinset = ∅ then 0
  else ((a.toFinset ∩ b.toFinset).card : ℚ) / ((a.toFinset ∪ b.toFinset).card : ℚ)

lemma jaccard_comm (a b : List PyStr) :
    _jaccard_similarity a b = _jaccard_similarity b a := by
  unfold _jaccard_similarity
  by_cases ha : a.toFinset = ∅ <;> by_cases hb : b.toFinset = ∅ <;>
    simp [ha, hb, Finset.inter_comm, Finset.union_comm]

lemma jaccard_self (a : List PyStr) : _jaccard_similarity a a = 1 := by
  unfold _jaccard_similarity
  by_cases h : a.toFinset = ∅
  · simp [h]
  · simp only [h, and_self, or_self, if_false, if_neg h]
    rw [Finset.inter_self, Finset.union_self]
    have hcard : (a.toFinset.card : ℚ) ≠ 0 := by
      exact_mod_cast Finset.card_ne_zero.mpr (Finset.nonempty_iff_ne_empty.mpr h)
    exact div_self hcard

lemma jaccard_nonneg (a b : List PyStr) : 0 ≤ _jaccard_similarity a b := by
  unfold _jaccard_similarity
  split
  · norm_num
  · split
    · norm_num
    · positivity

lemma jaccard_le_one (a b : List PyStr) : _jaccard_similarity a b ≤ 1 := by
  unfold _jaccard_similarity
  split
  · norm_num
  · split
    · norm_num
    · rename_i h1 h2
      have hne : a.toFinset ≠ ∅ := by tauto
      have hpos : 0 < ((a.toFinset ∪ b.toFinset).card : ℚ) := by
        have : 0 < (a.toFinset ∪ b.toFinset).card := by
          apply Finset.card_pos.mpr
          exact Finset.Nonempty.inl (Finset.nonempty_iff_ne_empty.mpr hne)
        exact_mod_cast this
      rw [div_le_one hpos]
      exact_mod_cast Finset.card_le_card Finset.inter_subset_union

/-- C6: `_jaccard_similarity` is symmetric, reflexive (value `1` even on the
empty list), and its result always lies in the closed interval `[0, 1]`. -/
theorem C6_jaccard_symmetric_reflexive_bounded (a b : List PyStr) :
    _jaccard_similarity a b = _jaccard_similarity b a ∧
    _jaccard_similarity a a = 1 ∧
    0 ≤ _jaccard_similarity a b ∧ _jaccard_similarity a b ≤ 1 :=
  ⟨jaccard_comm a b, jaccard_self a, jaccard_nonneg a b, jaccard_le_one a b⟩

/-- Python `" ".join(tokens)`: the tokens joined by single spaces. -/
def pyJoin : List PyStr → PyStr
  | [] => []
  | [w] => w
  | w :: ws => w ++ ' ' :: pyJoin ws

lemma alnum_not_space (c : Char) (h : isLowerAlnum c = true) : isPySpace c = false := by
  cases hsp : isPySpace c
  · rfl
  · exfalso
    have hc : ((((c = ' ' ∨ c = '\t') ∨ c = '\n') ∨ c = '\r') ∨ c = '\x0b') ∨ c = '\x0c' := by
      simpa [isPySpace] using hsp
    rcases hc with ((((h' | h') | h') | h') | h') | h' <;> subst h' <;> exact absurd h (by decide)

lemma pySplitAux_mem (s : PyStr) :
    ∀ acc : PyStr, (∀ c ∈ s, isLowerAlnum c = true ∨ isPySpace c = true) →
    (∀ c ∈ acc, isLowerAlnum c = true) →
    ∀ w ∈ pySplitAux s acc, w ≠ [] ∧ ∀ c ∈ w, isLowerAlnum c = true := by
  induction s with
  | nil =>
    intro acc _ hacc w hw
    by_cases he : acc.isEmpty
    · simp [pySplitAux, he] at hw
    · simp [pySplitAux, he] at hw
      subst hw
      refine ⟨?_, ?_⟩
      · simpa [List.isEmpty_iff] using fun h => he (by simp [h, List.isEmpty_iff])
      · intro c hc
        exact hacc c (List.mem_reverse.mp hc)
  | cons d rest ih =>
    intro acc hs hacc w hw
    by_cases hd : isPySpace d
    · rw [pySplitAux, if_pos hd] at hw
      by_cases he : acc.isEmpty
      · rw [if_pos he] at hw
        exact ih [] (fun c hc => hs c (List.mem_cons_of_mem d hc)) (by simp) w hw
      · rw [if_neg he] at hw
        rcases List.mem_cons.mp hw with h' | h'
        · subst h'
          refine ⟨?_, ?_⟩
          · simpa [List.isEmpty_iff] using fun h => he (by simp [h, List.isEmpty_iff])
          · intro c hc
            exact hacc c (List.mem_reverse.mp hc)
        · exact ih [] (fun c hc => hs c (List.mem_cons_of_mem d hc)) (by simp) w h'
    · rw [pySplitAux, if_neg hd] at hw
      have hdal : isLowerAlnum d = true := by
        rcases hs d (List.mem_cons_self d rest) with h' | h'
        · exact h'
        · exact absurd h' hd
      refine ih (d :: acc) (fun c hc => hs c (List.mem_cons_of_mem d hc)) ?_ w hw
      intro c hc
      rcases List.mem_cons.mp hc with h' | h'
      · subst h'; exact hdal
      · exact hacc c h'

lemma pySplitAux_word (w : PyStr) :
    ∀ (s acc : PyStr), (∀ c ∈ w, isPySpace c = false) →
    pySplitAux (w ++ s) acc = pySplitAux s (w.reverse ++ acc) := by
  induction w with
  | nil => intro s acc _; simp
  | cons c w' ih =>
    intro s acc hw
    have hc : isPySpace c = false := hw c (List.mem_cons_self c w')
    rw [List.cons_append, pySplitAux, if_neg (by simp [hc])]
    rw [ih s (c :: acc) (fun d hd => hw d (List.mem_cons_of_mem c hd))]
    simp

lemma pySplit_join (ws : List PyStr) (hne : ∀ w ∈ ws, w ≠ [])
    (hns : ∀ w ∈ ws, ∀ c ∈ w, isPySpace c = false) :
    pySplit (pyJoin ws) = ws := by
  induction ws with
  | nil => rfl
  | cons w rest ih =>
    cases rest with
    | nil =>
      show pySplitAux (pyJoin [w]) [] = [w]
      have : pyJoin [w] = w ++ [] := by simp [pyJoin]
      rw [this, pySplitAux_word w [] [] (hns w (List.mem_cons_self w []))]
      have hwne : w.reverse.isEmpty = false := by
        simp [List.isEmpty_iff, hne w (List.mem_cons_self w [])]
      simp [pySplitAux, hwne]
    | cons w' rest' =>
      have hj : pyJoin (w :: w' :: rest') = w ++ ' ' :: pyJoin (w' :: rest') := rfl
      show pySplitAux (pyJoin (w :: w' :: rest')) [] = w :: w' :: rest'
      rw [hj, pySplitAux_word w _ [] (hns w (List.mem_cons_self w _))]
      have hwne : w.reverse.isEmpty = false := by
        simp [List.isEmpty_iff, hne w (List.mem_cons_self w _)]
      rw [pySplitAux, if_pos (by decide), if_neg (by simp [hwne]), List.append_nil,
        List.reverse_reverse]
      have ihres := ih (fun v hv => hne v (List.mem_cons_of_mem w hv))
        (fun v hv => hns v (List.mem_cons_of_mem w hv))
      exact congrArg (w :: ·) ihres

lemma mem_pyJoin (ws : List PyStr) :
    ∀ c ∈ pyJoin ws, (∃ w ∈ ws, c ∈ w) ∨ c = ' ' := by
  induction ws with
  | nil => intro c hc; simp [pyJoin] at hc
  | cons w rest ih =>
    cases rest with
    | nil =>
      intro c hc
      exact Or.inl ⟨w, List.mem_cons_self w [], by simpa [pyJoin] using hc⟩
    | cons w' rest' =>
      intro c hc
      have hj : pyJoin (w :: w' :: rest') = w ++ ' ' :: pyJoin (w' :: rest') := rfl
      rw [hj, List.mem_append] at hc
      rcases hc with h' | h'
      · exact Or.inl ⟨w, List.mem_cons_self w _, h'⟩
      · rcases List.mem_cons.mp h' with h'' | h''
        · exact Or.inr h''
        · rcases ih c h'' with ⟨v, hv, hcv⟩ | h''
          · exact Or.inl ⟨v, List.mem_cons_of_mem w hv, hcv⟩
          · exact Or.inr h''

lemma map_id_of_mem {α : Type} (f : α → α) :
    ∀ l : List α, (∀ a ∈ l, f a = a) → l.map f = l := by
  intro l
  induction l with
  | nil => intro _; rfl
  | cons a l ih =>
    intro h
    rw [List.map_cons, h a (List.mem_cons_self a l),
      ih fun b hb => h b (List.mem_cons_of_mem a hb)]

lemma pyLowerChar_fix (c : Char) (h : isLowerAlnum c = true) : pyLowerChar c = c := by
  unfold pyLowerChar
  rw [if_neg]
  rintro ⟨h1, h2⟩
  have hc : ('a' ≤ c ∧ c ≤ 'z') ∨ ('0' ≤ c ∧ c ≤ '9') := by
    simpa [isLowerAlnum] using h
  rcases hc with ⟨ha, _⟩ | ⟨_, hb⟩
  · exact absurd (le_trans ha h2) (by decide)
  · exact absurd (le_trans h1 hb) (by decide)

lemma normalize_tokens_alnum (q : PyStr) :
    ∀ w ∈ _normalize_text q, w ≠ [] ∧ ∀ c ∈ w, isLowerAlnum c = true := by
  intro w hw
  have hw' : w ∈ pySplit (subNonAlnum (pyLower q)) :=
    (List.mem_filter.mp (List.mem_filter.mp hw).1).1
  refine pySplitAux_mem _ [] ?_ (by simp) w hw'
  intro c hc
  rcases List.mem_map.mp hc with ⟨d, _, hd⟩
  by_cases hcond : (isLowerAlnum d || isPySpace d) = true
  · rw [if_pos hcond] at hd
    subst hd
    simpa [Bool.or_eq_true] using hcond
  · rw [if_neg hcond] at hd
    subst hd
    right
    decide

lemma normalize_tokens_long (q : PyStr) :
    ∀ w ∈ _normalize_text q, 1 < w.length := by
  intro w hw
  have := (List.mem_filter.mp (List.mem_filter.mp hw).1).2
  simpa using this

lemma normalize_tokens_nonstop (q : PyStr) :
    ∀ w ∈ _normalize_text q, stopwords.contains w = false := by
  intro w hw
  have := (List.mem_filter.mp hw).2
  simpa using this

/-- C7: token normalization is idempotent — joining the tokens produced by
`_normalize_text` back into text with single spaces and normalizing again
returns the same token list: every output token is already lower-cased,
punctuation-free, longer than one character and not a stop-word. -/
theorem C7_normalize_idempotent (q : PyStr) :
    _normalize_text (pyJoin (_normalize_text q)) = _normalize_text q := by
  have halnum := normalize_tokens_alnum q
  have hjoin : ∀ c ∈ pyJoin (_normalize_text q), isLowerAlnum c = true ∨ c = ' ' := by
    intro c hc
    rcases mem_pyJoin _ c hc with ⟨w, hw, hcw⟩ | h'
    · exact Or.inl ((halnum w hw).2 c hcw)
    · exact Or.inr h'
  have hlower : pyLower (pyJoin (_normalize_text q)) = pyJoin (_normalize_text q) := by
    refine map_id_of_mem _ _ fun c hc => ?_
    rcases hjoin c hc with h' | h'
    · exact pyLowerChar_fix c h'
    · subst h'; decide
  have hsub : subNonAlnum (pyJoin (_normalize_text q)) = pyJoin (_normalize_text q) := by
    refine map_id_of_mem _ _ fun c hc => ?_
    rcases hjoin c hc with h' | h'
    · rw [if_pos]; simp [h']
    · subst h'; decide
  have hsplit : pySplit (pyJoin (_normalize_text q)) = _normalize_text q :=
    pySplit_join _ (fun w hw => (halnum w hw).1)
      (fun w hw c hc => alnum_not_space c ((halnum w hw).2 c hc))
  show ((pySplit (subNonAlnum (pyLower (pyJoin (_normalize_text q))))).filter
      fun t => t.length > 1).filter (fun t => !(stopwords.contains t)) = _normalize_text q
  have hf1 : (_normalize_text q).filter (fun t => t.length > 1) = _normalize_text q :=
    List.filter_eq_self.mpr fun w hw => by simpa using normalize_tokens_long q w hw
  have hf2 : (_normalize_text q).filter (fun t => !(stopwords.contains t)) = _normalize_text q :=
    List.filter_eq_self.mpr fun w hw => by simpa using normalize_tokens_nonstop q w hw
  rw [hlower, hsub, hsplit, hf1, hf2]

/-- A result row: a mapping from column name to rendered scalar value. -/
abbrev Row := List (PyStr × PyStr)

/-- A UTC wall-clock instant, as carried by Python `datetime.utcnow()`. -/
structure PyDateTime where
  year : Nat
  month : Nat
  day : Nat
  hour : Nat
  minute : Nat
  second : Nat
  microsecond : Nat
deriving DecidableEq

/-- A natural number printed in decimal, zero-padded on the left to `w` digits. -/
def padNum (w n : Nat) : PyStr :=
  List.replicate (w - (Nat.toDigits 10 n).length) '0' ++ Nat.toDigits 10 n

/-- Python `datetime.isoformat()`: `YYYY-MM-DDTHH:MM:SS`, followed by a
`.ffffff` fractional part exactly when `microsecond` is nonzero. -/
def PyDateTime.isoformat (d : PyDateTime) : PyStr :=
  padNum 4 d.year ++ '-' :: padNum 2 d.month ++ '-' :: padNum 2 d.day ++
  'T' :: padNum 2 d.hour ++ ':' :: padNum 2 d.minute ++ ':' :: padNum 2 d.second ++
  (if d.microsecond = 0 then [] else '.' :: padNum 6 d.microsecond)

/-- An Interaction Record as built by `ConversationMemory.store`. -/
structure Entry where
  question : PyStr
  question_tokens : List PyStr
  sql_query : Option PyStr
  summary : Option PyStr
  results : List Row
  timestamp : PyStr
deriving DecidableEq

/-- The arguments of one `store(question, sql_query, results, summary)` call. -/
structure StoreInput where
  question : PyStr
  sql_query : Option PyStr
  results : Option (List Row)
  summary : Option PyStr
deriving DecidableEq

/-- The entry dict built by `ConversationMemory.store`: `question_tokens`
recomputed from the question, `results or []`, timestamp
`datetime.utcnow().isoformat() + "Z"`. -/
def mkEntry (x : StoreInput) (now : PyDateTime) : Entry :=
  { question := x.question
    question_tokens := _normalize_text x.question
    sql_query := x.sql_query
    summary := x.summary
    results := x.results.getD []
    timestamp := now.isoformat ++ ['Z'] }

/-- Python slice `l[-n:]` as used in `store`: the last `n` elements when
`n ≥ 1`; for `n = 0` the slice `[-0:]` is `[0:]`, i.e. the whole list. -/
def pySliceLast {α : Type} (n : Nat) (l : List α) : List α :=
  if n = 0 then l else l.drop (l.length - n)

/-- In-memory state of a `ConversationMemory` instance. -/
structure MemState where
  path : PyStr
  max_entries : Nat
  entries : List Entry
deriving DecidableEq

/-- `ConversationMemory._load`: the backing file may be absent (`none`),
readable and parseable (`some (.ok entries)`), or unreadable/unparseable
(`some (.error msg)`); any loading failure starts fresh instead of raising. -/
def _load (file : Option (Except PyStr (List Entry))) : List Entry :=
  match file with
  | none => []
  | some (Except.ok es) => es
  | some (Except.error _) => []

/-- `ConversationMemory.__init__`: record path and capacity, then `_load`. -/
def ConversationMemory.init (path : PyStr) (max_entries : Nat)
    (file : Option (Except PyStr (List Entry))) : MemState :=
  { path := path, max_entries := max_entries, entries := _load file }

/-- `ConversationMemory.store`: append the new entry, then trim via
`self._entries[-self.max_entries:]` when the length exceeds the capacity.
(`_save` failures are swallowed and do not affect the in-memory list.) -/
def ConversationMemory.store (m : MemState) (x : StoreInput) (now : PyDateTime) : MemState :=
  { m with entries :=
      if (m.entries ++ [mkEntry x now]).length > m.max_entries then
        pySliceLast m.max_entries (m.entries ++ [mkEntry x now])
      else m.entries ++ [mkEntry x now] }

/-- A sequence of `store` calls, oldest first. -/
def ConversationMemory.storeAll (m : MemState) (xs : List (StoreInput × PyDateTime)) :
    MemState :=
  xs.foldl (fun m p => ConversationMemory.store m p.1 p.2) m

lemma storeAll_append (m : MemState) (xs : List (StoreInput × PyDateTime))
    (p : StoreInput × PyDateTime) :
    ConversationMemory.storeAll m (xs ++ [p]) =
      ConversationMemory.store (ConversationMemory.storeAll m xs) p.1 p.2 := by
  simp [ConversationMemory.storeAll, List.foldl_append]

lemma storeAll_path (m : MemState) (xs : List (StoreInput × PyDateTime)) :
    (ConversationMemory.storeAll m xs).path = m.path ∧
    (ConversationMemory.storeAll m xs).max_entries = m.max_entries := by
  induction xs using List.reverseRecOn with
  | nil => exact ⟨rfl, rfl⟩
  | append_singleton xs p ih =>
    rw [storeAll_append]
    exact ⟨ih.1, ih.2⟩

lemma store_entries (m : MemState) (x : StoreInput) (now : PyDateTime) :
    (ConversationMemory.store m x now).entries =
      if (m.entries ++ [mkEntry x now]).length > m.max_entries then
        pySliceLast m.max_entries (m.entries ++ [mkEntry x now])
      else m.entries ++ [mkEntry x now] := rfl

lemma drop_concat {α : Type} (k : Nat) (A : List α) (e : α) (hk : k ≤ A.length) :
    (A ++ [e]).drop k = A.drop k ++ [e] := by
  rw [List.drop_append_eq_append_drop]
  have h0 : k - A.length = 0 := by omega
  rw [h0, List.drop_zero]

lemma storeAll_entries_drop (path : PyStr) (max : Nat) (hmax : 1 ≤ max)
    (xs : List (StoreInput × PyDateTime)) :
    (ConversationMemory.storeAll ⟨path, max, []⟩ xs).entries =
      (xs.map fun p => mkEntry p.1 p.2).drop (xs.length - max) := by
  induction xs using List.reverseRecOn with
  | nil => simp [ConversationMemory.storeAll]
  | append_singleton xs p ih =>
    rw [storeAll_append, store_entries]
    have hmx : (ConversationMemory.storeAll ⟨path, max, []⟩ xs).max_entries = max :=
      (storeAll_path _ _).2
    rw [hmx, ih]
    have hlenA : (xs.map fun p => mkEntry p.1 p.2).length = xs.length := List.length_map _ _
    have hmapped : (xs ++ [p]).map (fun p => mkEntry p.1 p.2)
        = (xs.map fun p => mkEntry p.1 p.2) ++ [mkEntry p.1 p.2] := by simp
    have hlen2 : (xs ++ [p]).length = xs.length + 1 := by simp
    rw [hmapped, hlen2]
    by_cases hn : xs.length < max
    · have hd0 : xs.length - max = 0 := by omega
      have hd1 : xs.length + 1 - max = 0 := by omega
      have hcond : ¬ ((xs.map fun p => mkEntry p.1 p.2).drop (xs.length - max)
          ++ [mkEntry p.1 p.2]).length > max := by
        rw [hd0, List.drop_zero, List.length_append, hlenA]
        simp only [List.length_singleton]
        omega
      rw [if_neg hcond, hd0, hd1, List.drop_zero, List.drop_zero]
    · have hge : max ≤ xs.length := by omega
      have hlen : ((xs.map fun p => mkEntry p.1 p.2).drop (xs.length - max)
          ++ [mkEntry p.1 p.2]).length = max + 1 := by
        rw [List.length_append, List.length_drop, hlenA]
        simp only [List.length_singleton]
        omega
      rw [if_pos (by rw [hlen]; omega), pySliceLast, if_neg (by omega), hlen]
      have h1 : max + 1 - max = 1 := by omega
      rw [h1, drop_concat 1 _ _ (by rw [List.length_drop, hlenA]; omega),
        List.drop_drop,
        drop_concat (xs.length + 1 - max) _ _ (by rw [hlenA]; omega)]
      congr 2
      omega

/-- C1 counterexample: with capacity `max_entries = 0`, storing one record
leaves 1 entry — the Python slice `self._entries[-0:]` is the whole list, so
the in-memory list exceeds the capacity, refuting the claim for every
capacity. -/
theorem C1_capacity_zero_counterexample :
    0 < (ConversationMemory.storeAll ⟨[], 0, []⟩
        [(⟨"q1".data, none, none, none⟩, ⟨2026, 1, 2, 3, 4, 5, 0⟩)]).entries.length := by
  decide

/-- C1 (amended to capacities `max_entries ≥ 1`): after any sequence of
`store` calls starting from an empty memory, the entry list is exactly the
most recent `max_entries` records in insertion order (strict FIFO eviction
from the front), hence never exceeds `max_entries`, and equals `max_entries`
exactly once more than `max_entries` records have been stored. -/
theorem C1_fifo_capacity_bound (path : PyStr) (max : Nat)
    (xs : List (StoreInput × PyDateTime)) (hmax : 1 ≤ max) :
    (ConversationMemory.storeAll ⟨path, max, []⟩ xs).entries =
      (xs.map fun p => mkEntry p.1 p.2).drop (xs.length - max) ∧
    (ConversationMemory.storeAll ⟨path, max, []⟩ xs).entries.length ≤ max ∧
    (max < xs.length → (ConversationMemory.storeAll ⟨path, max, []⟩ xs).entries.length = max) := by
  have hdrop := storeAll_entries_drop path max hmax xs
  have hlen : (ConversationMemory.storeAll ⟨path, max, []⟩ xs).entries.length
      = xs.length - (xs.length - max) := by
    rw [hdrop, List.length_drop, List.length_map]
  exact ⟨hdrop, by omega, fun h => by omega⟩

/-- C1 witness: with capacity 2, storing three records leaves exactly the two
most recent ones, in order. -/
theorem C1_fifo_capacity_bound_witness :
    (ConversationMemory.storeAll ⟨[], 2, []⟩
        [(⟨"list all customers".data, none, none, none⟩, ⟨2026, 1, 1, 0, 0, 0, 0⟩),
         (⟨"count the orders".data, none, none, none⟩, ⟨2026, 1, 1, 0, 0, 1, 0⟩),
         (⟨"top products".data, none, none, none⟩, ⟨2026, 1, 1, 0, 0, 2, 0⟩)]).entries =
      [mkEntry ⟨"count the orders".data, none, none, none⟩ ⟨2026, 1, 1, 0, 0, 1, 0⟩,
       mkEntry ⟨"top products".data, none, none, none⟩ ⟨2026, 1, 1, 0, 0, 2, 0⟩] := by
  rw [(C1_fifo_capacity_bound [] 2 _ (by decide)).1]
  decide

/-- C8 counterexample: `datetime.utcnow().isoformat() + "Z"` records the
creation instant with a microsecond fractional part whenever the microsecond
component is nonzero (which `utcnow()` essentially always produces), so the
stored timestamp is not at seconds precision: the recorded string contains a
fractional `.ffffff` part. -/
theorem C8_timestamp_precision_counterexample :
    ((ConversationMemory.store ⟨[], 200, []⟩ ⟨"total sales".data, none, none, none⟩
        ⟨2026, 1, 2, 3, 4, 5, 123456⟩).entries.map Entry.timestamp)
      = ["2026-01-02T03:04:05.123456Z".data] ∧
    '.' ∈ "2026-01-02T03:04:05.123456Z".data := by
  refine ⟨by decide, by decide⟩

/-- C8 (amended): every record created by `store` carries a timestamp equal to
the UTC creation instant formatted by `isoformat()` (microsecond precision
when the microsecond component is nonzero) with `"Z"` appended; it is set once
at creation, and `store` never alters the entries that were already present —
every surviving entry is either unchanged from the previous state or the newly
created one. -/
theorem C8_timestamp_set_once (m : MemState) (x : StoreInput) (now : PyDateTime) :
    (ConversationMemory.store m x now).entries.getLast? = some (mkEntry x now) ∧
    (mkEntry x now).timestamp = now.isoformat ++ ['Z'] ∧
    ∀ e ∈ (ConversationMemory.store m x now).entries, e ∈ m.entries ∨ e = mkEntry x now := by
  refine ⟨?_, rfl, ?_⟩
  · rw [store_entries]
    split
    · rw [pySliceLast]
      split
      · exact List.getLast?_concat _
      · rename_i hgt h0
        rw [drop_concat _ _ _ (by simp at hgt ⊢; omega)]
        exact List.getLast?_concat _
    · exact List.getLast?_concat _
  · intro e he
    rw [store_entries] at he
    have hsub : e ∈ m.entries ++ [mkEntry x now] := by
      rcases (by assumption : e ∈ _) with he'
      revert he'
      split
      · rw [pySliceLast]
        split
        · exact fun h => h
        · exact fun h => List.drop_subset _ _ h
      · exact fun h => h
    rcases List.mem_append.mp hsub with h' | h'
    · exact Or.inl h'
    · exact Or.inr (by simpa using h')

/-- C9: constructing a `ConversationMemory` never propagates a loading
failure — if the backing file is unreadable or unparseable the constructor
yields an empty in-memory entry list (a fresh store), and an absent file
likewise yields an empty list. -/
theorem C9_load_failure_starts_fresh (path : PyStr) (max : Nat) (err : PyStr) :
    (ConversationMemory.init path max (some (Except.error err))).entries = [] ∧
    (ConversationMemory.init path max none).entries = [] :=
  ⟨rfl, rfl⟩

/-- `get_memory` from `src/llm/memory.py`: the cached instance slot
(`get_memory._instance`) is threaded explicitly; a `none` slot constructs
`ConversationMemory(path, max_entries)` and caches it, a `some` slot is
returned unchanged (a constructed instance is always truthy). -/
def get_memory (inst : Option MemState) (path : PyStr) (max_entries : Nat)
    (file : Option (Except PyStr (List Entry))) : MemState × Option MemState :=
  match inst with
  | some m => (m, some m)
  | none =>
    (ConversationMemory.init path max_entries file,
     some (ConversationMemory.init path max_entries file))

/-- C10: `get_memory` is a lazy singleton whose construction arguments are
fixed by the first call — the first call constructs the instance from its own
arguments, and every later call returns that instance unchanged, silently
ignoring its `path`/`max_entries` arguments even when they differ. -/
theorem C10_get_memory_singleton (p1 p2 : PyStr) (n1 n2 : Nat)
    (f1 f2 : Option (Except PyStr (List Entry))) :
    (get_memory none p1 n1 f1).1 = ConversationMemory.init p1 n1 f1 ∧
    (get_memory (get_memory none p1 n1 f1).2 p2 n2 f2).1 = (get_memory none p1 n1 f1).1 ∧
    (get_memory (get_memory none p1 n1 f1).2 p2 n2 f2).2 = (get_memory none p1 n1 f1).2 :=
  ⟨rfl, rfl, rfl⟩

/-- Python `str.strip()` with no argument: whitespace removed from both ends. -/
def pyStripWs (s : PyStr) : PyStr :=
  ((s.dropWhile isPySpace).reverse.dropWhile isPySpace).reverse

/-- Outcome of `execute_sql_query`: the result rows, the error string (empty
on success), and whether the statement was submitted to the database cursor. -/
structure ExecOutcome where
  results : List Row
  error : PyStr
  submitted : Bool
deriving DecidableEq

/-- `execute_sql_query` from `src/app/database_utils.py`: connection check,
then the read-only allow-list on `sql_query.strip().upper()`, then execution
(`db` models the cursor; `Except.error` models a raised
`mysql.connector.Error`). -/
def execute_sql_query (connOk : Bool) (db : PyStr → Except PyStr (List Row))
    (sql_query : PyStr) : ExecOutcome :=
  if !connOk then
    ⟨[], "ERROR: Could not connect to database for query execution.".data, false⟩
  else if !("SELECT".data.isPrefixOf (pyUpper (pyStripWs sql_query))
         || "WITH".data.isPrefixOf (pyUpper (pyStripWs sql_query))) then
    ⟨[], "SECURITY ERROR: Only read-only SELECT or WITH statements are allowed.".data, false⟩
  else
    match db sql_query with
    | Except.ok rows => ⟨rows, [], true⟩
    | Except.error e => ⟨[], "SQL EXECUTION ERROR: ".data ++ e, true⟩

/-- C2: with a live connection, a statement whose stripped upper-cased form
starts with neither `SELECT` nor `WITH` yields an empty result list and the
security-classified error, without being submitted to the database; a
statement starting with `SELECT` or `WITH` passes the check and is submitted
for execution. -/
theorem C2_executor_readonly_allowlist (db : PyStr → Except PyStr (List Row)) (q : PyStr) :
    (("SELECT".data.isPrefixOf (pyUpper (pyStripWs q)) = false ∧
      "WITH".data.isPrefixOf (pyUpper (pyStripWs q)) = false) →
      execute_sql_query true db q =
        ⟨[], "SECURITY ERROR: Only read-only SELECT or WITH statements are allowed.".data,
          false⟩ ∧
      "SECURITY ERROR".data.isPrefixOf (execute_sql_query true db q).error = true) ∧
    (("SELECT".data.isPrefixOf (pyUpper (pyStripWs q)) = true ∨
      "WITH".data.isPrefixOf (pyUpper (pyStripWs q)) = true) →
      (execute_sql_query true db q).submitted = true) := by
  constructor
  · rintro ⟨h1, h2⟩
    have hcond : ("SELECT".data.isPrefixOf (pyUpper (pyStripWs q))
        || "WITH".data.isPrefixOf (pyUpper (pyStripWs q))) = false := by
      rw [h1, h2]; rfl
    have heq : execute_sql_query true db q =
        ⟨[], "SECURITY ERROR: Only read-only SELECT or WITH statements are allowed.".data,
          false⟩ := by
      unfold execute_sql_query
      rw [hcond]
      rfl
    exact ⟨heq, by rw [heq]; decide⟩
  · intro h
    have hcond : ("SELECT".data.isPrefixOf (pyUpper (pyStripWs q))
        || "WITH".data.isPrefixOf (pyUpper (pyStripWs q))) = true := by
      rcases h with h | h <;> simp [h]
    unfold execute_sql_query
    rw [hcond]
    cases db q <;> rfl

/-- C2 witness: `"DROP TABLE customers"` and `"DELETE FROM orders"` are
rejected with the security-classified error and never submitted, while
`"SELECT 1"` and `"WITH t AS (SELECT 1) SELECT * FROM t"` pass the check and
are submitted. -/
theorem C2_executor_readonly_allowlist_witness :
    execute_sql_query true (fun _ => Except.ok []) "DROP TABLE customers".data =
      ⟨[], "SECURITY ERROR: Only read-only SELECT or WITH statements are allowed.".data,
        false⟩ ∧
    execute_sql_query true (fun _ => Except.ok []) "DELETE FROM orders".data =
      ⟨[], "SECURITY ERROR: Only read-only SELECT or WITH statements are allowed.".data,
        false⟩ ∧
    (execute_sql_query true (fun _ => Except.ok []) "SELECT 1".data).submitted = true ∧
    (execute_sql_query true (fun _ => Except.ok [])
      "WITH t AS (SELECT 1) SELECT * FROM t".data).submitted = true :=
  ⟨((C2_executor_readonly_allowlist _ _).1 (by decide)).1,
   ((C2_executor_readonly_allowlist _ _).1 (by decide)).1,
   (C2_executor_readonly_allowlist _ _).2 (by decide),
   (C2_executor_readonly_allowlist _ _).2 (by decide)⟩

/-- Python `str.strip(chars)`: remove from BOTH ends every character that
belongs to the character SET `cs` (not the literal substring `cs`). -/
def pyStripSet (cs : PyStr) (s : PyStr) : PyStr :=
  ((s.dropWhile (cs.contains ·)).reverse.dropWhile (cs.contains ·)).reverse

/-- Python substring test `pat in s`. -/
def containsSub (s pat : PyStr) : Bool :=
  (List.range (s.length + 1)).any fun i => pat.isPrefixOf (s.drop i)

/-- `generate_sql_query` from `src/llm/llm_chain.py`, post-LLM part: the
`response` argument models the text of the synthesizer reply (`Except.error`
models a raised exception anywhere in the call). Empty or
`QUERY_NOT_POSSIBLE`-containing replies return the sentinel; then code fences
are removed with `str.strip("```sql")` / `str.strip("```")` — which strip a
character set — and the result is whitespace-trimmed. -/
def generate_sql_query (llmOk : Bool) (response : Except PyStr PyStr) : PyStr :=
  if !llmOk then "ERROR: LLM not initialized.".data
  else
    match response with
    | Except.error _ => "ERROR: Failed to generate SQL query.".data
    | Except.ok generated_query =>
      if generated_query.isEmpty || containsSub generated_query "QUERY_NOT_POSSIBLE".data then
        "QUERY_NOT_POSSIBLE".data
      else
        let g1 := if "```sql".data.isPrefixOf generated_query then
            pyStripWs (pyStripSet "```sql".data generated_query)
          else generated_query
        let g2 := if "```".data.isSuffixOf g1 then
            pyStripWs (pyStripSet "```".data g1)
          else g1
        pyStripWs g2

/-- C5: evaluation at the failing input. The fence-wrapped synthesizer reply
`"```sql SELECT * FROM users```"` should yield the inner SQL
`"SELECT * FROM users"`, but `str.strip("```sql")` strips the character set
`{`, s, q, l}` from both ends, so the trailing `s` of `users` is eaten and
the function returns `"SELECT * FROM user"`; the sentinel branch for empty /
`QUERY_NOT_POSSIBLE` replies does behave as claimed. -/
theorem C5_fence_strip_mangles_sql :
    generate_sql_query true (Except.ok "```sql SELECT * FROM users```".data)
      = "SELECT * FROM user".data ∧
    "SELECT * FROM user".data ≠ "SELECT * FROM users".data ∧
    generate_sql_query true (Except.ok []) = "QUERY_NOT_POSSIBLE".data ∧
    generate_sql_query true
        (Except.ok "QUERY_NOT_POSSIBLE: no such table".data) = "QUERY_NOT_POSSIBLE".data := by
  refine ⟨by decide, by decide, by decide, by decide⟩

/-- `ConversationMemory.find_similar` from `src/llm/memory.py`. The client
check comes first; then `os.path.exists(path)` / `open(path).read()` is
modelled by `file` (`none`: absent; `some (.ok ctx)`: readable content;
`some (.error e)`: the file exists but reading it raises — this read is NOT
inside the `try`, so the exception propagates, modelled as `Except.error`).
`svc` models the guarded block: the `generate_content` call together with
`response.candidates[0].content.parts[0].text`; its failures are caught and
degrade to `None`. A reply equal to `"none"` after strip/lower is a miss. -/
def find_similar (clientOk : Bool) (user_query : PyStr)
    (file : Option (Except PyStr PyStr))
    (svc : PyStr → PyStr → Except PyStr PyStr) : Except PyStr (Option PyStr) :=
  if !clientOk then Except.ok none
  else
    match file with
    | none => Except.ok none
    | some (Except.error e) => Except.error e
    | some (Except.ok context) =>
      match svc user_query context with
      | Except.error _ => Except.ok none
      | Except.ok res =>
        if pyLower (pyStripWs res) = "none".data then Except.ok none
        else Except.ok (some res)

lemma find_similar_ok_ctx (q ctx : PyStr) (svc : PyStr → PyStr → Except PyStr PyStr) :
    find_similar true q (some (Except.ok ctx)) svc =
      match svc q ctx with
      | Except.error _ => Except.ok none
      | Except.ok res =>
        if pyLower (pyStripWs res) = "none".data then Except.ok none
        else Except.ok (some res) := rfl

/-- C4 counterexample: when the log file exists but reading it fails (e.g. a
permission or decode error), `find_similar` propagates the exception to its
caller instead of degrading to `None` — the `open(path).read()` call sits
outside the `try` block. -/
theorem C4_read_failure_counterexample :
    find_similar true "total sales".data (some (Except.error "PermissionError".data))
        (fun _ _ => Except.ok "cached answer".data)
      = Except.error "PermissionError".data ∧
    Except.error "PermissionError".data ≠
      (Except.ok none : Except PyStr (Option PyStr)) :=
  ⟨rfl, by simp⟩

/-- C4 (amended): an absent log file yields `None` (cache miss) rather than a
failure; given readable log content, `find_similar` never raises — in
particular a failure of the reasoning-service call or of response parsing
degrades to `None`. Only an error while reading an existing file escapes. -/
theorem C4_recall_degrades_to_none (clientOk : Bool) (q : PyStr)
    (svc : PyStr → PyStr → Except PyStr PyStr) :
    (find_similar clientOk q none svc = Except.ok none) ∧
    (∀ ctx : PyStr, ∃ r : Option PyStr,
      find_similar clientOk q (some (Except.ok ctx)) svc = Except.ok r) ∧
    (∀ ctx err : PyStr, svc q ctx = Except.error err →
      find_similar clientOk q (some (Except.ok ctx)) svc = Except.ok none) := by
  refine ⟨?_, ?_, ?_⟩
  · cases clientOk <;> rfl
  · intro ctx
    cases clientOk with
    | false => exact ⟨none, rfl⟩
    | true =>
      cases hs : svc q ctx with
      | error e =>
        refine ⟨none, ?_⟩
        rw [find_similar_ok_ctx, hs]
      | ok res =>
        by_cases hres : pyLower (pyStripWs res) = "none".data
        · refine ⟨none, ?_⟩
          rw [find_similar_ok_ctx, hs]
          exact if_pos hres
        · refine ⟨some res, ?_⟩
          rw [find_similar_ok_ctx, hs]
          exact if_neg hres
  · intro ctx err hs
    cases clientOk with
    | false => rfl
    | true =>
      rw [find_similar_ok_ctx, hs]

/-- C4 witness: concrete instances — an absent file gives a miss, and a
raising reasoning service degrades to a miss. -/
theorem C4_recall_degrades_to_none_witness :
    find_similar true "total sales".data none (fun _ _ => Except.ok "x".data)
      = Except.ok none ∧
    find_similar true "total sales".data (some (Except.ok "log content".data))
        (fun _ _ => Except.error "APIError".data)
      = Except.ok none :=
  ⟨(C4_recall_degrades_to_none true "total sales".data
      (fun _ _ => Except.ok "x".data)).1,
   (C4_recall_degrades_to_none true "total sales".data
      (fun _ _ => Except.error "APIError".data)).2.2 "log content".data "APIError".data rfl⟩

/-- The fixed similarity threshold of the spec's local-Jaccard recall
strategy ("a fixed threshold (e.g., 0.5)"). -/
def similarity_threshold : ℚ := 1/2

/-- The best-scoring record of a scored list: maximum score, earliest on ties. -/
def bestScored : List (Entry × ℚ) → Option (Entry × ℚ)
  | [] => none
  | p :: rest =>
    match bestScored rest with
    | none => some p
    | some q => if p.2 < q.2 then some q else some p

/-- Modelled from the spec: the local-Jaccard `find_similar` strategy. It is
not implemented under `src/` (the source's `find_similar` delegates to a
remote reasoning service with the raw log as context); spec §4.1 prescribes:
"normalize both questions into token sets as above, compute `|A∩B| / |A∪B|`
against every stored record's `question_tokens`, and treat the maximum score
above a fixed threshold (e.g., 0.5) as a hit, returning that record's
`summary`/`sql_query`/`results` verbatim" — here the hit returns the whole
stored record. -/
def find_similar_local (entries : List Entry) (user_query : PyStr) : Option Entry :=
  match bestScored (entries.map fun e =>
      (e, _jaccard_similarity (_normalize_text user_query) e.question_tokens)) with
  | none => none
  | some (e, s) => if similarity_threshold ≤ s then some e else none

lemma bestScored_cons_none (a : Entry × ℚ) (rest : List (Entry × ℚ))
    (hb : bestScored rest = none) : bestScored (a :: rest) = some a := by
  rw [bestScored, hb]

lemma bestScored_cons_some (a : Entry × ℚ) (rest : List (Entry × ℚ)) (q : Entry × ℚ)
    (hb : bestScored rest = some q) :
    bestScored (a :: rest) = if a.2 < q.2 then some q else some a := by
  rw [bestScored, hb]

lemma bestScored_ne_none (a : Entry × ℚ) (rest : List (Entry × ℚ)) :
    bestScored (a :: rest) ≠ none := by
  cases hb : bestScored rest with
  | none => rw [bestScored_cons_none a rest hb]; simp
  | some q => rw [bestScored_cons_some a rest q hb]; split <;> simp

lemma bestScored_mem :
    ∀ (l : List (Entry × ℚ)) (p : Entry × ℚ), bestScored l = some p → p ∈ l := by
  intro l
  induction l with
  | nil => intro p h; simp [bestScored] at h
  | cons a rest ih =>
    intro p h
    cases hb : bestScored rest with
    | none =>
      rw [bestScored_cons_none a rest hb] at h
      exact (Option.some_inj.mp h) ▸ List.mem_cons_self a rest
    | some q =>
      rw [bestScored_cons_some a rest q hb] at h
      by_cases hlt : a.2 < q.2
      · rw [if_pos hlt] at h
        rw [← Option.some_inj.mp h]
        exact List.mem_cons_of_mem a (ih q hb)
      · rw [if_neg hlt] at h
        exact (Option.some_inj.mp h) ▸ List.mem_cons_self a rest

lemma bestScored_max :
    ∀ (l : List (Entry × ℚ)) (p : Entry × ℚ), bestScored l = some p →
      ∀ q ∈ l, q.2 ≤ p.2 := by
  intro l
  induction l with
  | nil => intro p h; simp [bestScored] at h
  | cons a rest ih =>
    intro p h q hq
    cases hb : bestScored rest with
    | none =>
      rw [bestScored_cons_none a rest hb] at h
      have hrest : rest = [] := by
        cases rest with
        | nil => rfl
        | cons b rest' => exact absurd hb (bestScored_ne_none b rest')
      subst hrest
      rcases List.mem_cons.mp hq with h' | h'
      · rw [h', ← Option.some_inj.mp h]
      · simp at h'
    | some q' =>
      rw [bestScored_cons_some a rest q' hb] at h
      rcases List.mem_cons.mp hq with h' | h'
      · subst h'
        by_cases hlt : q.2 < q'.2
        · rw [if_pos hlt] at h
          rw [← Option.some_inj.mp h]
          exact le_of_lt hlt
        · rw [if_neg hlt] at h
          rw [← Option.some_inj.mp h]
      · have hle := ih q' hb q h'
        by_cases hlt : a.2 < q'.2
        · rw [if_pos hlt] at h
          rw [← Option.some_inj.mp h]
          exact hle
        · rw [if_neg hlt] at h
          rw [← Option.some_inj.mp h]
          exact le_trans hle (le_of_not_lt hlt)

lemma jaccard_disjoint_zero (a b : List PyStr)
    (hd : a.toFinset ∩ b.toFinset = ∅)
    (hne : ¬(a.toFinset = ∅ ∧ b.toFinset = ∅)) : _jaccard_similarity a b = 0 := by
  unfold _jaccard_similarity
  rw [if_neg hne]
  by_cases h2 : a.toFinset = ∅ ∨ b.toFinset = ∅
  · rw [if_pos h2]
  · rw [if_neg h2, hd]
    simp

lemma find_similar_local_singleton (e : Entry) (q : PyStr) :
    find_similar_local [e] q =
      if similarity_threshold ≤
          _jaccard_similarity (_normalize_text q) e.question_tokens then some e
      else none := by
  unfold find_similar_local
  rw [List.map_singleton, bestScored_cons_none _ [] rfl]

/-- C3 counterexample (to the claim as stated, against the spec-modelled
local-Jaccard strategy): the new question `"a"` and the stored question
`"the"` both normalize to the empty token set, so their vocabularies are
(trivially) disjoint — yet `_jaccard_similarity` scores two empty sets as
`1.0`, at or above the threshold, and the stored record is returned instead
of "no match" (`none`). -/
theorem C3_disjoint_vocabulary_counterexample :
    (∀ t ∈ _normalize_text "a".data,
      t ∉ (mkEntry ⟨"the".data, none, none, some "cached summary".data⟩
        ⟨2026, 1, 1, 0, 0, 0, 0⟩).question_tokens) ∧
    find_similar_local
        [mkEntry ⟨"the".data, none, none, some "cached summary".data⟩
          ⟨2026, 1, 1, 0, 0, 0, 0⟩]
        "a".data
      = some (mkEntry ⟨"the".data, none, none, some "cached summary".data⟩
          ⟨2026, 1, 1, 0, 0, 0, 0⟩) := by
  constructor
  · intro t ht
    have hq : _normalize_text "a".data = [] := rfl
    rw [hq] at ht
    simp at ht
  · rw [find_similar_local_singleton]
    have h1 : _jaccard_similarity (_normalize_text "a".data)
        (mkEntry ⟨"the".data, none, none, some "cached summary".data⟩
          ⟨2026, 1, 1, 0, 0, 0, 0⟩).question_tokens = 1 := jaccard_self []
    rw [h1]
    exact if_pos (by norm_num [similarity_threshold])

/-- C3 (amended, spec-modelled): against the local-Jaccard strategy, whenever
some stored record's token set scores at or above the threshold against the
normalized new question, `find_similar_local` returns a stored record scoring
at or above the threshold (whose cached `summary` the caller reuses); and it
returns `none` whenever the new question's token set is disjoint from every
stored record's token set, provided the two sets are not both empty (two
empty token sets count as similarity `1.0`, a hit). -/
theorem C3_local_jaccard_recall (entries : List Entry) (q : PyStr) :
    ((∃ e ∈ entries, similarity_threshold ≤
        _jaccard_similarity (_normalize_text q) e.question_tokens) →
      ∃ e ∈ entries, find_similar_local entries q = some e ∧
        similarity_threshold ≤ _jaccard_similarity (_normalize_text q) e.question_tokens) ∧
    ((∀ e ∈ entries,
        (_normalize_text q).toFinset ∩ e.question_tokens.toFinset = ∅ ∧
        ¬((_normalize_text q).toFinset = ∅ ∧ e.question_tokens.toFinset = ∅)) →
      find_similar_local entries q = none) := by
  constructor
  · rintro ⟨e0, he0, hs0⟩
    cases hb : bestScored (entries.map fun e =>
        (e, _jaccard_similarity (_normalize_text q) e.question_tokens)) with
    | none =>
      exfalso
      cases hmap : entries.map fun e =>
          (e, _jaccard_similarity (_normalize_text q) e.question_tokens) with
      | nil =>
        rw [hmap] at hb
        have hnil : entries = [] := List.map_eq_nil_iff.mp hmap
        subst hnil
        simp at he0
      | cons a rest =>
        rw [hmap] at hb
        exact bestScored_ne_none a rest hb
    | some p =>
      have hmem := bestScored_mem _ _ hb
      rcases List.mem_map.mp hmem with ⟨e1, he1, hpe⟩
      subst hpe
      have hmax := bestScored_max _ _ hb
        (e0, _jaccard_similarity (_normalize_text q) e0.question_tokens)
        (List.mem_map.mpr ⟨e0, he0, rfl⟩)
      have hthr : similarity_threshold ≤
          _jaccard_similarity (_normalize_text q) e1.question_tokens :=
        le_trans hs0 hmax
      refine ⟨e1, he1, ?_, hthr⟩
      unfold find_similar_local
      rw [hb]
      exact if_pos hthr
  · intro hdis
    cases hb : bestScored (entries.map fun e =>
        (e, _jaccard_similarity (_normalize_text q) e.question_tokens)) with
    | none =>
      unfold find_similar_local
      rw [hb]
    | some p =>
      have hmem := bestScored_mem _ _ hb
      rcases List.mem_map.mp hmem with ⟨e1, he1, hpe⟩
      subst hpe
      have hzero : _jaccard_similarity (_normalize_text q) e1.question_tokens = 0 :=
        jaccard_disjoint_zero _ _ (hdis e1 he1).1 (hdis e1 he1).2
      unfold find_similar_local
      rw [hb]
      show (if similarity_threshold ≤
          _jaccard_similarity (_normalize_text q) e1.question_tokens then some e1
        else none) = none
      rw [hzero]
      exact if_neg (by norm_num [similarity_threshold])

/-- C3 witness: re-asking the stored question `"total sales"` scores `1 ≥ 1/2`
and recalls the stored record; `"customer names"` shares no token with the
stored `"total sales"` and yields no match. -/
theorem C3_local_jaccard_recall_witness :
    (∃ e ∈ [mkEntry ⟨"total sales".data, none, none, some "summary A".data⟩
          ⟨2026, 1, 1, 0, 0, 0, 0⟩],
      find_similar_local
          [mkEntry ⟨"total sales".data, none, none, some "summary A".data⟩
            ⟨2026, 1, 1, 0, 0, 0, 0⟩]
          "total sales".data = some e ∧
        similarity_threshold ≤ _jaccard_similarity
          (_normalize_text "total sales".data) e.question_tokens) ∧
    find_similar_local
        [mkEntry ⟨"total sales".data, none, none, some "summary B".data⟩
          ⟨2026, 1, 1, 0, 0, 0, 0⟩]
        "customer names".data = none := by
  refine ⟨(C3_local_jaccard_recall _ _).1
      ⟨mkEntry ⟨"total sales".data, none, none, some "summary A".data⟩
          ⟨2026, 1, 1, 0, 0, 0, 0⟩, List.mem_cons_self _ _, ?_⟩,
    (C3_local_jaccard_recall _ _).2 (by decide)⟩
  show similarity_threshold ≤ _jaccard_similarity
      (_normalize_text "total sales".data) (_normalize_text "total sales".data)
  rw [jaccard_self]
  norm_num [similarity_threshold]
